import Mathlib

/-!
Shallow embedding of the editable budget grid in
`src/Demo2/src/components/BudgetGrid.tsx`.

The component state (`rows`, `drafts`, `loading`, `loadError`, `saving`,
`fieldErrors`) is modelled as an explicit `GridState` record, and the three
event handlers `loadBudgets`, `handleDraftChange` and `handleCommit` become
pure state-transition functions.  Since the network calls are the only
suspension points and every handler runs to completion on the single UI
thread, an invocation is modelled atomically: the outcome of the awaited
service call (`FetchOutcome` / `UpdateOutcome`) is passed in as an argument,
and `handleCommit` additionally returns the update payload it sent to the
store (`none` when no request was issued).

JavaScript numbers are idealised as exact rationals (`ℚ`): `Number(s)` is
modelled by `jsNumber : String → Option ℚ` (with `none` standing for `NaN`
and `±Infinity`, i.e. exactly the values rejected by the source's
`Number.isFinite` guard), and `String(n)` by `jsString : ℚ → String`, which
prints the shortest exact decimal form — the behaviour of JavaScript's
number-to-string conversion on the decimal values this component works with.
Float64 rounding/overflow and exponential display of extreme magnitudes are
outside this idealisation.  `value.trim()` is modelled by `jsTrim`, using the
ECMAScript white-space set.
-/

/-- A display row of the grid (`BudgetRow` in the source): the record id and
the three editable attributes, all kept as strings for display. -/
structure BudgetRow where
  id : String
  name : String
  budgetConsumed : String
  ownerId : String
deriving DecidableEq, Repr

/-- The three editable fields (`DraftField` in the source). -/
inductive DraftField where
  | name
  | budgetConsumed
  | ownerId
deriving DecidableEq, Repr

/-- Dynamic field read `row[field]`. -/
def BudgetRow.get (r : BudgetRow) : DraftField → String
  | .name => r.name
  | .budgetConsumed => r.budgetConsumed
  | .ownerId => r.ownerId

/-- Dynamic field write `{ ...row, [field]: value }`. -/
def BudgetRow.set (r : BudgetRow) (field : DraftField) (value : String) : BudgetRow :=
  match field with
  | .name => { r with name := value }
  | .budgetConsumed => { r with budgetConsumed := value }
  | .ownerId => { r with ownerId := value }

/-- The literal string of a `DraftField` union value, as interpolated by
`${field}` in the source. -/
def DraftField.str : DraftField → String
  | .name => "name"
  | .budgetConsumed => "budgetConsumed"
  | .ownerId => "ownerId"

/-- `getErrorKey` from the source: the composite key `` `${id}-${field}` ``
indexing the `saving` and `fieldErrors` maps. -/
def getErrorKey (id : String) (field : DraftField) : String :=
  id ++ "-" ++ field.str

/-- The all-empty row.  A JavaScript spread `{ ...current[id], [field]: value }`
with `current[id] === undefined` produces an object whose other attributes are
absent; since every read of a draft attribute goes through
`drafts[id]?.[field] ?? ''`, an absent attribute is observationally the empty
string, so missing draft entries are modelled as this row. -/
def emptyRow : BudgetRow :=
  { id := "", name := "", budgetConsumed := "", ownerId := "" }

/-- ECMAScript white space and line terminator code points, the set stripped
by `String.prototype.trim`. -/
def jsWhitespace (c : Char) : Bool :=
  [9, 10, 11, 12, 13, 32, 160, 5760, 8192, 8193, 8194, 8195, 8196, 8197, 8198,
    8199, 8200, 8201, 8202, 8232, 8233, 8239, 8287, 12288, 65279].contains c.toNat

/-- Strip leading and trailing JavaScript white space from a character list. -/
def trimChars (l : List Char) : List Char :=
  ((l.dropWhile jsWhitespace).reverse.dropWhile jsWhitespace).reverse

/-- Model of `value.trim()`. -/
def jsTrim (s : String) : String :=
  String.mk (trimChars s.data)

/-- Numeric value of an ASCII digit character. -/
def digitVal (c : Char) : Nat :=
  c.toNat - 48

/-- Value of a big-endian list of ASCII digit characters. -/
def digitsVal : List Char → Nat
  | [] => 0
  | c :: t => digitVal c * 10 ^ t.length + digitsVal t

/-- Split an optional fraction part `.digits` off the remainder of a decimal
literal; returns the fraction digits and the remaining characters. -/
def splitFrac : List Char → List Char × List Char
  | '.' :: rest => (rest.takeWhile Char.isDigit, rest.dropWhile Char.isDigit)
  | r1 => ([], r1)

/-- The rational `m * 10 ^ t`, built through `Rat.divInt` so that it reduces
on concrete inputs. -/
def scalePow10 (m : Nat) (t : ℤ) : ℚ :=
  if 0 ≤ t then Rat.divInt (m * 10 ^ t.toNat) 1 else Rat.divInt m (10 ^ (-t).toNat)

/-- Parse the digits of an exponent part and apply it to the integer mantissa
`M` (a value scaled up by `10 ^ c`); the whole remainder must be consumed. -/
def parseExpTail (M c : Nat) (esign : ℤ) (r3 : List Char) : Option ℚ :=
  if r3.takeWhile Char.isDigit = [] ∨ ¬ r3.dropWhile Char.isDigit = [] then none
  else some (scalePow10 M (esign * (digitsVal (r3.takeWhile Char.isDigit) : ℤ) - c))

/-- Parse an optional `e`/`E` exponent part after the mantissa of a decimal
literal (given as integer mantissa `M` scaled up by `10 ^ c`); the whole
remainder must be consumed. -/
def parseExpPart (M c : Nat) (r2 : List Char) : Option ℚ :=
  if r2 = [] then some (scalePow10 M (-(c : ℤ)))
  else if r2.head? = some 'e' ∨ r2.head? = some 'E' then
    parseExpTail M c (if r2.tail.head? = some '-' then (-1 : ℤ) else 1)
      (if r2.tail.head? = some '+' ∨ r2.tail.head? = some '-' then r2.tail.tail else r2.tail)
  else none

/-- Parse an unsigned ECMAScript `StrUnsignedDecimalLiteral`
(`digits [. digits] [exponent]`, at least one mantissa digit, nothing left
over). -/
def parseDec (l : List Char) : Option ℚ :=
  if l.takeWhile Char.isDigit = [] ∧ (splitFrac (l.dropWhile Char.isDigit)).1 = [] then none
  else
    parseExpPart
      (digitsVal (l.takeWhile Char.isDigit)
          * 10 ^ (splitFrac (l.dropWhile Char.isDigit)).1.length
        + digitsVal (splitFrac (l.dropWhile Char.isDigit)).1)
      (splitFrac (l.dropWhile Char.isDigit)).1.length
      (splitFrac (l.dropWhile Char.isDigit)).2

/-- Value of a hexadecimal digit character, if any. -/
def hexDigitVal (c : Char) : Option Nat :=
  if c.isDigit then some (c.toNat - 48)
  else if 'a' ≤ c ∧ c ≤ 'f' then some (c.toNat - 87)
  else if 'A' ≤ c ∧ c ≤ 'F' then some (c.toNat - 55)
  else none

/-- Value of a digit string in the given radix, if every character is a valid
digit of that radix. -/
def radixVal (base : Nat) (l : List Char) : Option Nat :=
  l.foldl
    (fun acc c =>
      match acc, hexDigitVal c with
      | some a, some d => if d < base then some (base * a + d) else none
      | _, _ => none)
    (some 0)

/-- Parse a non-empty digit string in the given radix. -/
def parseRadix (base : Nat) (l : List Char) : Option ℚ :=
  if l = [] then none else (radixVal base l).map (fun n : Nat => Rat.divInt (n : ℤ) 1)

/-- Parse an optionally signed decimal literal or `Infinity`
(`±Infinity` is non-finite, hence `none`). -/
def jsNumberSigned (l : List Char) : Option ℚ :=
  if l.head? = some '-' then
    if l.tail = "Infinity".data then none else (parseDec l.tail).map (fun q => -q)
  else if l.head? = some '+' then
    if l.tail = "Infinity".data then none else parseDec l.tail
  else
    if l = "Infinity".data then none else parseDec l

/-- ECMAScript string-to-number conversion on an already trimmed character
list: empty means `0`; `0x`/`0o`/`0b` literals are unsigned non-decimal
integers; otherwise an optionally signed decimal literal or `Infinity`.
`none` stands for a non-finite result (`NaN` or `±Infinity`), exactly the
values rejected by `Number.isFinite`. -/
def jsNumberAux (l : List Char) : Option ℚ :=
  if l = [] then some 0
  else if l.take 2 = ['0', 'x'] ∨ l.take 2 = ['0', 'X'] then parseRadix 16 (l.drop 2)
  else if l.take 2 = ['0', 'o'] ∨ l.take 2 = ['0', 'O'] then parseRadix 8 (l.drop 2)
  else if l.take 2 = ['0', 'b'] ∨ l.take 2 = ['0', 'B'] then parseRadix 2 (l.drop 2)
  else jsNumberSigned l

/-- Model of `Number(s)` combined with the `Number.isFinite` guard of the
source: `some q` when `s` converts to the finite value `q`, `none` when it
converts to `NaN` or `±Infinity`.  `s` is expected to be already trimmed (the
source always applies `value.trim()` first). -/
def jsNumber (s : String) : Option ℚ :=
  jsNumberAux s.data

/-- The ASCII digit character for a digit value. -/
def charOfDigit (d : Nat) : Char :=
  Char.ofNat (48 + d)

/-- Little-endian digit characters of a natural number (empty for `0`);
fuel-structured so that it reduces definitionally. -/
def natToRevDigits : Nat → Nat → List Char
  | 0, _ => []
  | fuel + 1, n => if n = 0 then [] else charOfDigit (n % 10) :: natToRevDigits fuel (n / 10)

/-- Big-endian decimal digit characters of a natural number. -/
def natDigitChars (n : Nat) : List Char :=
  if n = 0 then ['0'] else (natToRevDigits n n).reverse

/-- Search for the smallest exponent `k` (starting at the given one, within
`fuel` steps) with `d ∣ 10 ^ k`. -/
def decExpAux (d : Nat) : Nat → Nat → Option Nat
  | 0, _ => none
  | fuel + 1, k => if d ∣ 10 ^ k then some k else decExpAux d fuel (k + 1)

/-- The number of decimal places needed for denominator `d`: the smallest `k`
with `d ∣ 10 ^ k`, when one exists (it always does for denominators of
parsed decimal literals). -/
def decExp (d : Nat) : Nat :=
  (decExpAux d (d + 1) 0).getD 0

/-- The unsigned body of the decimal rendering of `m / 10 ^ k`: the digit
string of `m` with a decimal point inserted `k` places from the right,
zero-padded on the left as needed. -/
def jsBodyChars (k m : Nat) : List Char :=
  if k = 0 then natDigitChars m
  else if (natDigitChars m).length ≤ k then
    '0' :: '.' :: (List.replicate (k - (natDigitChars m).length) '0' ++ natDigitChars m)
  else
    (natDigitChars m).take ((natDigitChars m).length - k)
      ++ '.' :: (natDigitChars m).drop ((natDigitChars m).length - k)

/-- Characters of the decimal rendering of a rational. -/
def jsStringChars (q : ℚ) : List Char :=
  if q < 0 then '-' :: jsBodyChars (decExp q.den) (q.num.natAbs * 10 ^ decExp q.den / q.den)
  else jsBodyChars (decExp q.den) (q.num.natAbs * 10 ^ decExp q.den / q.den)

/-- Model of `String(n)` for a finite number: the shortest exact decimal
form, which is what JavaScript prints for the decimal values handled by this
component (no exponential notation, which JavaScript only uses for
magnitudes ≥ 1e21 or < 1e-6). -/
def jsString (q : ℚ) : String :=
  String.mk (jsStringChars q)

/-- A record fetched by `Promx_budgetsService.getAll`, with the four selected
attributes; the three editable attributes are optional in the store. -/
structure RawBudget where
  promx_budgetid : String
  promx_name : Option String
  promx_budgetconsumed : Option String
  ownerid : Option String
deriving DecidableEq, Repr

/-- Outcome of the awaited `getAll` call: `ok data` for a resolved promise
(with `none` modelling a non-array `result.data`, mapped to `[]` by the
`Array.isArray` guard), `err m` for a rejection (`some m` an `Error` carrying
message `m`, `none` a non-`Error` throw, mapped to the generic fallback). -/
inductive FetchOutcome where
  | ok (data : Option (List RawBudget))
  | err (message : Option String)

/-- Outcome of the awaited `update` call: `err m` is a rejection, with
`some m` an `Error` carrying message `m` and `none` a non-`Error` throw. -/
inductive UpdateOutcome where
  | ok
  | err (message : Option String)

/-- The single-attribute body passed to `Promx_budgetsService.update`:
at most one of the three store-side attributes is present. -/
structure UpdatePayload where
  promx_name : Option String := none
  promx_budgetconsumed : Option ℚ := none
  ownerid : Option String := none
deriving DecidableEq, Repr

/-- Pointwise update of a string-keyed partial map, modelling
`{ ...current, [k]: v }` (with `v = none` modelling `[k]: undefined`). -/
def setMap {α : Type} (m : String → Option α) (k : String) (v : Option α) :
    String → Option α :=
  fun x => if x = k then v else m x

/-- Pointwise update of a string-keyed boolean map, modelling
`{ ...current, [k]: v }` (an absent key reads as `false`). -/
def setFlag (m : String → Bool) (k : String) (v : Bool) : String → Bool :=
  fun x => if x = k then v else m x

/-- The complete component state of `BudgetGrid`. -/
@[ext]
structure GridState where
  rows : List BudgetRow
  drafts : String → Option BudgetRow
  loading : Bool
  loadError : Option String
  saving : String → Bool
  fieldErrors : String → Option String

/-- The row built from one fetched record (the `data.map` body in
`loadBudgets`): missing attributes default to the empty string. -/
def mapBudget (budget : RawBudget) : BudgetRow :=
  { id := budget.promx_budgetid
    name := budget.promx_name.getD ""
    budgetConsumed := budget.promx_budgetconsumed.getD ""
    ownerId := budget.ownerid.getD "" }

/-- The draft map reseeded from freshly mapped rows (the `draftSeed` loop in
`loadBudgets`): built from scratch, one shadow copy per row id, a later
duplicate id overwriting an earlier one. -/
def seedDrafts (mapped : List BudgetRow) : String → Option BudgetRow :=
  mapped.foldl (fun draftSeed item => setMap draftSeed item.id (some item)) (fun _ => none)

/-- The synchronous prefix of `loadBudgets`, before the await: sets the
loading flag and clears any prior load error. -/
def loadStart (s : GridState) : GridState :=
  { s with loading := true, loadError := none }

/-- The continuation of `loadBudgets` after the awaited `getAll` settles:
on success replaces rows and reseeds drafts; on failure records the load
error; the `finally` block always clears the loading flag. -/
def loadFinish (s : GridState) : FetchOutcome → GridState
  | .ok data =>
    { s with
      rows := (data.getD []).map mapBudget
      drafts := seedDrafts ((data.getD []).map mapBudget)
      loading := false }
  | .err message =>
    { s with
      loadError := some (message.getD "Unable to load budgets.")
      loading := false }

/-- One complete `loadBudgets()` invocation, the outcome of the awaited
`getAll` call passed as an argument. -/
def loadBudgets (s : GridState) (result : FetchOutcome) : GridState :=
  loadFinish (loadStart s) result

/-- `drafts[id]?.[field] ?? ''` (`getDraftValue` in the source). -/
def getDraftValue (drafts : String → Option BudgetRow) (id : String) (field : DraftField) :
    String :=
  match drafts id with
  | some row => row.get field
  | none => ""

/-- `handleDraftChange`: a keystroke updates only the draft entry of its row,
`{ ...current, [id]: { ...current[id], [field]: value } }`. -/
def handleDraftChange (s : GridState) (id : String) (field : DraftField) (value : String) :
    GridState :=
  { s with drafts := setMap s.drafts id (some (((s.drafts id).getD emptyRow).set field value)) }

/-- The per-field validation/transformation step of `handleCommit`: for
`budgetConsumed` the trimmed value must convert to a finite number (`none`
otherwise), the payload holds the parsed number and the display value is its
re-stringified form; `name` and `ownerId` pass the trimmed text through under
their store-side attribute names. -/
def commitPrep (field : DraftField) (draftValue : String) : Option (UpdatePayload × String) :=
  match field with
  | .budgetConsumed =>
    match jsNumber draftValue with
    | none => none
    | some parsed => some ({ promx_budgetconsumed := some parsed }, jsString parsed)
  | .name => some ({ promx_name := some draftValue }, draftValue)
  | .ownerId => some ({ ownerid := some draftValue }, draftValue)

/-- One complete `handleCommit(id, field, value)` invocation.  The outcome of
the awaited `update` call is passed as an argument and is consulted only on
the path that actually issues the request; the second component of the result
is the payload of the single `update` request issued, or `none` when the
invocation returned without contacting the store (unknown row id, validation
failure, or unchanged value). -/
def handleCommit (s : GridState) (id : String) (field : DraftField) (value : String)
    (result : UpdateOutcome) : GridState × Option UpdatePayload :=
  match s.rows.find? (fun row => row.id == id) with
  | none => (s, none)
  | some original =>
    match commitPrep field (jsTrim value) with
    | none =>
      ({ s with
          fieldErrors :=
            setMap s.fieldErrors (getErrorKey id field) (some "Enter a valid number.") },
        none)
    | some (updatePayload, nextValue) =>
      if original.get field = nextValue then
        ({ s with fieldErrors := setMap s.fieldErrors (getErrorKey id field) none }, none)
      else
        match result with
        | .ok =>
          ({ s with
              rows := s.rows.map (fun row => if row.id == id then row.set field nextValue else row)
              drafts :=
                setMap s.drafts id (some (((s.drafts id).getD emptyRow).set field nextValue))
              fieldErrors := setMap s.fieldErrors (getErrorKey id field) none
              saving :=
                setFlag (setFlag s.saving (getErrorKey id field) true) (getErrorKey id field)
                  false },
            some updatePayload)
        | .err m =>
          ({ s with
              fieldErrors :=
                setMap s.fieldErrors (getErrorKey id field)
                  (some (m.getD "Unable to save changes."))
              saving :=
                setFlag (setFlag s.saving (getErrorKey id field) true) (getErrorKey id field)
                  false },
            some updatePayload)

/-- The store-side attribute mapping claimed by the specification: the payload
carries exactly the one changed attribute under its store-side name
(`name` → `promx_name`, `budgetConsumed` → `promx_budgetconsumed` as a
number, `ownerId` → `ownerid`). -/
def payloadMatches : DraftField → UpdatePayload → String → Prop
  | .name, p, trimmed => p = { promx_name := some trimmed }
  | .budgetConsumed, p, trimmed =>
    ∃ parsed, jsNumber trimmed = some parsed ∧ p = { promx_budgetconsumed := some parsed }
  | .ownerId, p, trimmed => p = { ownerid := some trimmed }

/-! ### Basic lemmas about the state primitives -/

theorem setMap_same {α : Type} (m : String → Option α) (k : String) (v : Option α) :
    setMap m k v k = v := by
  simp [setMap]

theorem setMap_other {α : Type} (m : String → Option α) (k : String) (v : Option α)
    (x : String) (h : x ≠ k) : setMap m k v x = m x := by
  simp [setMap, h]

theorem setFlag_same (m : String → Bool) (k : String) (v : Bool) :
    setFlag m k v k = v := by
  simp [setFlag]

theorem setFlag_other (m : String → Bool) (k : String) (v : Bool)
    (x : String) (h : x ≠ k) : setFlag m k v x = m x := by
  simp [setFlag, h]

theorem BudgetRow.get_set (r : BudgetRow) (f : DraftField) (v : String) :
    (r.set f v).get f = v := by
  cases f <;> rfl

theorem BudgetRow.set_set (r : BudgetRow) (f : DraftField) (v : String) :
    (r.set f v).set f v = r.set f v := by
  cases f <;> rfl

theorem BudgetRow.id_set (r : BudgetRow) (f : DraftField) (v : String) :
    (r.set f v).id = r.id := by
  cases f <;> rfl

theorem name_str_data : ("name" : String).data = ['n', 'a', 'm', 'e'] := rfl

theorem budgetConsumed_str_data : ("budgetConsumed" : String).data
    = ['b', 'u', 'd', 'g', 'e', 't', 'C', 'o', 'n', 's', 'u', 'm', 'e', 'd'] := rfl

theorem ownerId_str_data : ("ownerId" : String).data
    = ['o', 'w', 'n', 'e', 'r', 'I', 'd'] := rfl

/-- The composite `` `${id}-${field}` `` keys are pairwise distinct across
distinct `(id, field)` pairs: none of the three field names is a suffix of
another, so the key determines both components. -/
theorem getErrorKey_inj {id id2 : String} {f f2 : DraftField}
    (h : getErrorKey id f = getErrorKey id2 f2) : id = id2 ∧ f = f2 := by
  have hd : f.str.data.reverse ++ '-' :: id.data.reverse
      = f2.str.data.reverse ++ '-' :: id2.data.reverse := by
    have h2 := congrArg (fun s => s.data.reverse) h
    simp only [getErrorKey, String.data_append, List.reverse_append] at h2
    simpa [List.append_assoc] using h2
  cases f <;> cases f2 <;>
    simp only [DraftField.str, name_str_data, budgetConsumed_str_data, ownerId_str_data,
      List.reverse_cons, List.reverse_nil, List.nil_append, List.append_assoc,
      List.singleton_append, List.cons_append, List.cons.injEq, true_and] at hd
  case name.name =>
    refine ⟨?_, rfl⟩
    have h3 : id.data = id2.data := by
      simpa using congrArg List.reverse hd
    exact congrArg String.mk h3
  case name.budgetConsumed => exact absurd hd.1 (by decide)
  case name.ownerId => exact absurd hd.1 (by decide)
  case budgetConsumed.name => exact absurd hd.1 (by decide)
  case budgetConsumed.budgetConsumed =>
    refine ⟨?_, rfl⟩
    have h3 : id.data = id2.data := by
      simpa using congrArg List.reverse hd
    exact congrArg String.mk h3
  case budgetConsumed.ownerId => exact absurd hd.1 (by decide)
  case ownerId.name => exact absurd hd.1 (by decide)
  case ownerId.budgetConsumed => exact absurd hd.1 (by decide)
  case ownerId.ownerId =>
    refine ⟨?_, rfl⟩
    have h3 : id.data = id2.data := by
      simpa using congrArg List.reverse hd
    exact congrArg String.mk h3

/-! ### A concrete sample state for witnesses -/

/-- A concrete loaded row used by the witness theorems. -/
def demoRow : BudgetRow :=
  { id := "r1", name := "Marketing", budgetConsumed := "150", ownerId := "owner-1" }

/-- A concrete loaded grid state used by the witness theorems. -/
def demoState : GridState :=
  { rows := [demoRow]
    drafts := seedDrafts [demoRow]
    loading := false
    loadError := none
    saving := fun _ => false
    fieldErrors := fun _ => none }

/-! ### Characterisations of the `handleCommit` branches -/

theorem handleCommit_not_found (s : GridState) (id : String) (field : DraftField)
    (value : String) (result : UpdateOutcome)
    (hfind : s.rows.find? (fun row => row.id == id) = none) :
    handleCommit s id field value result = (s, none) := by
  simp only [handleCommit, hfind]

theorem handleCommit_invalid (s : GridState) (id : String) (field : DraftField)
    (value : String) (result : UpdateOutcome) (original : BudgetRow)
    (hfind : s.rows.find? (fun row => row.id == id) = some original)
    (hprep : commitPrep field (jsTrim value) = none) :
    handleCommit s id field value result =
      ({ s with
          fieldErrors :=
            setMap s.fieldErrors (getErrorKey id field) (some "Enter a valid number.") },
        none) := by
  simp only [handleCommit, hfind, hprep]

theorem handleCommit_unchanged (s : GridState) (id : String) (field : DraftField)
    (value : String) (result : UpdateOutcome) (original : BudgetRow) (p : UpdatePayload)
    (nextValue : String)
    (hfind : s.rows.find? (fun row => row.id == id) = some original)
    (hprep : commitPrep field (jsTrim value) = some (p, nextValue))
    (hsame : original.get field = nextValue) :
    handleCommit s id field value result =
      ({ s with fieldErrors := setMap s.fieldErrors (getErrorKey id field) none }, none) := by
  simp only [handleCommit, hfind, hprep, if_pos hsame]

theorem handleCommit_ok_eq (s : GridState) (id : String) (field : DraftField)
    (value : String) (original : BudgetRow) (p : UpdatePayload) (nextValue : String)
    (hfind : s.rows.find? (fun row => row.id == id) = some original)
    (hprep : commitPrep field (jsTrim value) = some (p, nextValue))
    (hdiff : ¬ original.get field = nextValue) :
    handleCommit s id field value .ok =
      ({ s with
          rows := s.rows.map (fun row => if row.id == id then row.set field nextValue else row)
          drafts := setMap s.drafts id (some (((s.drafts id).getD emptyRow).set field nextValue))
          fieldErrors := setMap s.fieldErrors (getErrorKey id field) none
          saving :=
            setFlag (setFlag s.saving (getErrorKey id field) true) (getErrorKey id field)
              false },
        some p) := by
  simp only [handleCommit, hfind, hprep, if_neg hdiff]

theorem handleCommit_err_eq (s : GridState) (id : String) (field : DraftField)
    (value : String) (original : BudgetRow) (p : UpdatePayload) (nextValue : String)
    (m : Option String)
    (hfind : s.rows.find? (fun row => row.id == id) = some original)
    (hprep : commitPrep field (jsTrim value) = some (p, nextValue))
    (hdiff : ¬ original.get field = nextValue) :
    handleCommit s id field value (.err m) =
      ({ s with
          fieldErrors :=
            setMap s.fieldErrors (getErrorKey id field) (some (m.getD "Unable to save changes."))
          saving :=
            setFlag (setFlag s.saving (getErrorKey id field) true) (getErrorKey id field)
              false },
        some p) := by
  simp only [handleCommit, hfind, hprep, if_neg hdiff]

/-- Updating the matching rows preserves the `find?`-by-id lookup: the found
row is the updated original. -/
theorem find?_map_update (rows : List BudgetRow) (id : String) (field : DraftField)
    (nv : String) (original : BudgetRow)
    (h : rows.find? (fun row => row.id == id) = some original) :
    (rows.map (fun row => if row.id == id then row.set field nv else row)).find?
      (fun row => row.id == id) = some (original.set field nv) := by
  induction rows with
  | nil => simp at h
  | cons hd tl ih =>
    simp only [List.map_cons]
    by_cases hhd : (hd.id == id) = true
    · simp only [List.find?, hhd] at h
      have hoh : hd = original := by simpa using h
      subst hoh
      simp [List.find?, BudgetRow.id_set, hhd]
    · have heq : (hd.id == id) = false := by simpa using hhd
      simp only [List.find?, heq] at h
      simpa [List.find?, heq] using ih h

/-! ### Claim theorems: load and draft behaviour -/

/-- C7: a failed `load()` leaves the previously loaded rows and drafts
untouched and records the grid-level error message (the thrown error's
message, or the generic fallback for a non-`Error` throw); every load attempt
clears the load error in its synchronous prefix, which also sets the loading
flag; and the loading flag is cleared on completion regardless of outcome. -/
theorem loadBudgets_failure_frame_and_flags (s : GridState) (message : Option String)
    (result : FetchOutcome) :
    (loadBudgets s (.err message)).rows = s.rows ∧
    (loadBudgets s (.err message)).drafts = s.drafts ∧
    (loadBudgets s (.err message)).loadError = some (message.getD "Unable to load budgets.") ∧
    (loadStart s).loadError = none ∧
    (loadStart s).loading = true ∧
    (loadBudgets s result).loading = false := by
  refine ⟨rfl, rfl, rfl, rfl, rfl, ?_⟩
  cases result <;> rfl

/-- C9: `setDraftValue` (the `handleDraftChange` callback) leaves rows,
saving flags, field errors and the load state untouched, changes the draft
map only at its own row id, involves no service outcome (so it can issue no
request), and is idempotent: committing the same keystroke twice equals
committing it once. -/
theorem handleDraftChange_local_idempotent (s : GridState) (id : String)
    (field : DraftField) (value : String) :
    (handleDraftChange s id field value).rows = s.rows ∧
    (handleDraftChange s id field value).saving = s.saving ∧
    (handleDraftChange s id field value).fieldErrors = s.fieldErrors ∧
    (handleDraftChange s id field value).loading = s.loading ∧
    (handleDraftChange s id field value).loadError = s.loadError ∧
    (∀ id2, id2 ≠ id → (handleDraftChange s id field value).drafts id2 = s.drafts id2) ∧
    handleDraftChange (handleDraftChange s id field value) id field value =
      handleDraftChange s id field value := by
  refine ⟨rfl, rfl, rfl, rfl, rfl, fun id2 h => setMap_other _ _ _ _ h, ?_⟩
  unfold handleDraftChange
  congr 1
  funext x
  by_cases hx : x = id
  · subst hx
    simp [setMap, BudgetRow.set_set]
  · simp [setMap, hx]

/-- Witness for C9 at a concrete input. -/
theorem handleDraftChange_local_idempotent_witness :
    ("r2" : String) ≠ "r1" ∧
    (handleDraftChange demoState "r1" .name "Draft").drafts "r2" = demoState.drafts "r2" :=
  ⟨by decide,
    (handleDraftChange_local_idempotent demoState "r1" DraftField.name "Draft").2.2.2.2.2.1
      "r2" (by decide)⟩

/-! ### Claim theorems: commit behaviour -/

/-- C4: committing a `budgetConsumed` draft whose trimmed value does not
convert to a finite number sets the fixed validation message for that field
key, issues no update request, and leaves saving flags, rows and drafts
untouched. -/
theorem handleCommit_invalid_number (s : GridState) (id : String) (value : String)
    (result : UpdateOutcome) (original : BudgetRow)
    (hfind : s.rows.find? (fun row => row.id == id) = some original)
    (hbad : jsNumber (jsTrim value) = none) :
    (handleCommit s id .budgetConsumed value result).2 = none ∧
    (handleCommit s id .budgetConsumed value result).1.fieldErrors
      (getErrorKey id .budgetConsumed) = some "Enter a valid number." ∧
    (handleCommit s id .budgetConsumed value result).1.saving = s.saving ∧
    (handleCommit s id .budgetConsumed value result).1.rows = s.rows ∧
    (handleCommit s id .budgetConsumed value result).1.drafts = s.drafts := by
  have hprep : commitPrep .budgetConsumed (jsTrim value) = none := by
    simp [commitPrep, hbad]
  rw [handleCommit_invalid s id .budgetConsumed value result original hfind hprep]
  exact ⟨rfl, setMap_same _ _ _, rfl, rfl, rfl⟩

/-- Witness for C4 at a concrete input. -/
theorem handleCommit_invalid_number_witness :
    demoState.rows.find? (fun row => row.id == "r1") = some demoRow ∧
    jsNumber (jsTrim "abc") = none ∧
    (handleCommit demoState "r1" .budgetConsumed "abc" .ok).2 = none ∧
    (handleCommit demoState "r1" .budgetConsumed "abc" .ok).1.fieldErrors
      (getErrorKey "r1" .budgetConsumed) = some "Enter a valid number." :=
  ⟨by decide, by decide,
    (handleCommit_invalid_number demoState "r1" "abc" .ok demoRow (by decide) (by decide)).1,
    (handleCommit_invalid_number demoState "r1" "abc" .ok demoRow (by decide) (by decide)).2.1⟩

/-- C5: committing a value whose (possibly re-stringified) transformed form
equals the saved row value clears any error for that key and returns without
issuing a request, leaving saving flags, rows, drafts and all other error
keys untouched. -/
theorem handleCommit_noop_short_circuit (s : GridState) (id : String) (field : DraftField)
    (value : String) (result : UpdateOutcome) (original : BudgetRow) (p : UpdatePayload)
    (nextValue : String)
    (hfind : s.rows.find? (fun row => row.id == id) = some original)
    (hprep : commitPrep field (jsTrim value) = some (p, nextValue))
    (hsame : original.get field = nextValue) :
    (handleCommit s id field value result).2 = none ∧
    (handleCommit s id field value result).1.fieldErrors (getErrorKey id field) = none ∧
    (handleCommit s id field value result).1.saving = s.saving ∧
    (handleCommit s id field value result).1.rows = s.rows ∧
    (handleCommit s id field value result).1.drafts = s.drafts ∧
    (∀ k, k ≠ getErrorKey id field →
      (handleCommit s id field value result).1.fieldErrors k = s.fieldErrors k) := by
  rw [handleCommit_unchanged s id field value result original p nextValue hfind hprep hsame]
  exact ⟨rfl, setMap_same _ _ _, rfl, rfl, rfl, fun k hk => setMap_other _ _ _ _ hk⟩

/-- Witness for C5 at a concrete input. -/
theorem handleCommit_noop_short_circuit_witness :
    demoState.rows.find? (fun row => row.id == "r1") = some demoRow ∧
    commitPrep .budgetConsumed (jsTrim "150")
      = some ({ promx_budgetconsumed := some (Rat.divInt 150 1) }, "150") ∧
    demoRow.get .budgetConsumed = "150" ∧
    (handleCommit demoState "r1" .budgetConsumed "150" .ok).2 = none ∧
    (handleCommit demoState "r1" .budgetConsumed "150" .ok).1.fieldErrors
      (getErrorKey "r1" .budgetConsumed) = none :=
  ⟨by decide, by decide, by decide,
    (handleCommit_noop_short_circuit demoState "r1" .budgetConsumed "150" .ok demoRow
      { promx_budgetconsumed := some (Rat.divInt 150 1) } "150"
      (by decide) (by decide) (by decide)).1,
    (handleCommit_noop_short_circuit demoState "r1" .budgetConsumed "150" .ok demoRow
      { promx_budgetconsumed := some (Rat.divInt 150 1) } "150"
      (by decide) (by decide) (by decide)).2.1⟩

/-- The payload produced by `commitPrep` always matches the claimed
store-side attribute mapping. -/
theorem commitPrep_payloadMatches (field : DraftField) (draftValue : String)
    (p : UpdatePayload) (nextValue : String)
    (hprep : commitPrep field draftValue = some (p, nextValue)) :
    payloadMatches field p draftValue := by
  cases field with
  | name =>
    simp only [commitPrep, Option.some.injEq, Prod.mk.injEq] at hprep
    exact hprep.1.symm
  | budgetConsumed =>
    cases hn : jsNumber draftValue with
    | none => simp [commitPrep, hn] at hprep
    | some parsed =>
      simp only [commitPrep, hn, Option.some.injEq, Prod.mk.injEq] at hprep
      exact ⟨parsed, hn, hprep.1.symm⟩
  | ownerId =>
    simp only [commitPrep, Option.some.injEq, Prod.mk.injEq] at hprep
    exact hprep.1.symm

/-- C2: a commit on a loaded row id that passes validation and the
changed-value check issues exactly one update request, carrying only the
single changed attribute under its store-side name; on success the row and
the draft for that field hold the transformed value, the field error for that
key is cleared and the saving flag for that key ends false. -/
theorem handleCommit_success_single_update (s : GridState) (id : String)
    (field : DraftField) (value : String) (original : BudgetRow) (p : UpdatePayload)
    (nextValue : String)
    (hfind : s.rows.find? (fun row => row.id == id) = some original)
    (hprep : commitPrep field (jsTrim value) = some (p, nextValue))
    (hdiff : ¬ original.get field = nextValue) :
    (handleCommit s id field value .ok).2 = some p ∧
    payloadMatches field p (jsTrim value) ∧
    (handleCommit s id field value .ok).1.rows.find? (fun row => row.id == id) =
      some (original.set field nextValue) ∧
    (original.set field nextValue).get field = nextValue ∧
    (handleCommit s id field value .ok).1.drafts id =
      some (((s.drafts id).getD emptyRow).set field nextValue) ∧
    getDraftValue (handleCommit s id field value .ok).1.drafts id field = nextValue ∧
    (handleCommit s id field value .ok).1.fieldErrors (getErrorKey id field) = none ∧
    (handleCommit s id field value .ok).1.saving (getErrorKey id field) = false := by
  rw [handleCommit_ok_eq s id field value original p nextValue hfind hprep hdiff]
  refine ⟨rfl, commitPrep_payloadMatches field (jsTrim value) p nextValue hprep,
    find?_map_update s.rows id field nextValue original hfind, BudgetRow.get_set _ _ _,
    setMap_same _ _ _, ?_, setMap_same _ _ _, setFlag_same _ _ _⟩
  simp [getDraftValue, setMap_same, BudgetRow.get_set]

/-- Witness for C2 at a concrete input. -/
theorem handleCommit_success_single_update_witness :
    demoState.rows.find? (fun row => row.id == "r1") = some demoRow ∧
    commitPrep .name (jsTrim "Marketing Q3")
      = some ({ promx_name := some "Marketing Q3" }, "Marketing Q3") ∧
    ¬ demoRow.get .name = "Marketing Q3" ∧
    (handleCommit demoState "r1" .name "Marketing Q3" .ok).2
      = some { promx_name := some "Marketing Q3" } ∧
    (handleCommit demoState "r1" .name "Marketing Q3" .ok).1.saving
      (getErrorKey "r1" .name) = false :=
  ⟨by decide, by decide, by decide,
    (handleCommit_success_single_update demoState "r1" .name "Marketing Q3" demoRow
      { promx_name := some "Marketing Q3" } "Marketing Q3"
      (by decide) (by decide) (by decide)).1,
    (handleCommit_success_single_update demoState "r1" .name "Marketing Q3" demoRow
      { promx_name := some "Marketing Q3" } "Marketing Q3"
      (by decide) (by decide) (by decide)).2.2.2.2.2.2.2⟩

/-- C3: when the single issued update request fails, the field error for that
key becomes the failure's message (the generic fallback when the thrown value
carries none), rows and drafts are left exactly as before the attempt, and
the saving flag for that key ends false. -/
theorem handleCommit_failure_preserves_state (s : GridState) (id : String)
    (field : DraftField) (value : String) (original : BudgetRow) (p : UpdatePayload)
    (nextValue : String) (m : Option String)
    (hfind : s.rows.find? (fun row => row.id == id) = some original)
    (hprep : commitPrep field (jsTrim value) = some (p, nextValue))
    (hdiff : ¬ original.get field = nextValue) :
    (handleCommit s id field value (.err m)).2 = some p ∧
    (handleCommit s id field value (.err m)).1.rows = s.rows ∧
    (handleCommit s id field value (.err m)).1.drafts = s.drafts ∧
    (handleCommit s id field value (.err m)).1.fieldErrors (getErrorKey id field) =
      some (m.getD "Unable to save changes.") ∧
    (handleCommit s id field value (.err m)).1.saving (getErrorKey id field) = false := by
  rw [handleCommit_err_eq s id field value original p nextValue m hfind hprep hdiff]
  exact ⟨rfl, rfl, rfl, setMap_same _ _ _, setFlag_same _ _ _⟩

/-- Witness for C3 at a concrete input. -/
theorem handleCommit_failure_preserves_state_witness :
    demoState.rows.find? (fun row => row.id == "r1") = some demoRow ∧
    commitPrep .name (jsTrim "New Name") = some ({ promx_name := some "New Name" }, "New Name") ∧
    ¬ demoRow.get .name = "New Name" ∧
    (handleCommit demoState "r1" .name "New Name" (.err (some "network timeout"))).1.fieldErrors
      (getErrorKey "r1" .name) = some "network timeout" ∧
    (handleCommit demoState "r1" .name "New Name" (.err (some "network timeout"))).1.drafts
      = demoState.drafts :=
  ⟨by decide, by decide, by decide,
    (handleCommit_failure_preserves_state demoState "r1" .name "New Name" demoRow
      { promx_name := some "New Name" } "New Name" (some "network timeout")
      (by decide) (by decide) (by decide)).2.2.2.1,
    (handleCommit_failure_preserves_state demoState "r1" .name "New Name" demoRow
      { promx_name := some "New Name" } "New Name" (some "network timeout")
      (by decide) (by decide) (by decide)).2.2.1⟩

/-- C8: field-key isolation.  A draft keystroke never touches the error or
saving maps at all, and a commit touches them only at its own
`(rowId, field)` key: any other `(rowId, field)` pair reads the same error
and saving values after the operation, whatever its outcome. -/
theorem fieldKey_isolation (s : GridState) (id id2 : String) (field field2 : DraftField)
    (value : String) (result : UpdateOutcome)
    (h : ¬ (id2 = id ∧ field2 = field)) :
    (handleDraftChange s id field value).fieldErrors = s.fieldErrors ∧
    (handleDraftChange s id field value).saving = s.saving ∧
    ((handleCommit s id field value result).1.fieldErrors (getErrorKey id2 field2) =
        s.fieldErrors (getErrorKey id2 field2) ∧
      (handleCommit s id field value result).1.saving (getErrorKey id2 field2) =
        s.saving (getErrorKey id2 field2)) := by
  have hk : getErrorKey id2 field2 ≠ getErrorKey id field := fun he =>
    h ⟨(getErrorKey_inj he).1, (getErrorKey_inj he).2⟩
  refine ⟨rfl, rfl, ?_⟩
  cases hfind : s.rows.find? (fun row => row.id == id) with
  | none =>
    rw [handleCommit_not_found s id field value result hfind]
    exact ⟨rfl, rfl⟩
  | some original =>
    cases hprep : commitPrep field (jsTrim value) with
    | none =>
      rw [handleCommit_invalid s id field value result original hfind hprep]
      exact ⟨setMap_other _ _ _ _ hk, rfl⟩
    | some pr =>
      obtain ⟨p, nextValue⟩ := pr
      by_cases hsame : original.get field = nextValue
      · rw [handleCommit_unchanged s id field value result original p nextValue hfind hprep
          hsame]
        exact ⟨setMap_other _ _ _ _ hk, rfl⟩
      · cases result with
        | ok =>
          rw [handleCommit_ok_eq s id field value original p nextValue hfind hprep hsame]
          exact ⟨setMap_other _ _ _ _ hk,
            (setFlag_other _ _ _ _ hk).trans (setFlag_other _ _ _ _ hk)⟩
        | err m =>
          rw [handleCommit_err_eq s id field value original p nextValue m hfind hprep hsame]
          exact ⟨setMap_other _ _ _ _ hk,
            (setFlag_other _ _ _ _ hk).trans (setFlag_other _ _ _ _ hk)⟩

/-- Witness for C8 at a concrete input. -/
theorem fieldKey_isolation_witness :
    ¬ (("r1" : String) = "r1" ∧ DraftField.budgetConsumed = DraftField.name) ∧
    (handleCommit demoState "r1" .name "New Name" .ok).1.fieldErrors
      (getErrorKey "r1" .budgetConsumed)
      = demoState.fieldErrors (getErrorKey "r1" .budgetConsumed) :=
  ⟨by decide,
    (fieldKey_isolation demoState "r1" "r1" .name .budgetConsumed "New Name" .ok
      (by decide)).2.2.1⟩

/-! ### Claim theorems: load seeding and blank numeric drafts -/

theorem seedDrafts_foldl_notmem (rows : List BudgetRow) :
    ∀ (m : String → Option BudgetRow) (x : String), x ∉ rows.map BudgetRow.id →
      rows.foldl (fun d item => setMap d item.id (some item)) m x = m x := by
  induction rows with
  | nil => intro m x _; rfl
  | cons hd tl ih =>
    intro m x hx
    simp only [List.map_cons, List.mem_cons, not_or] at hx
    simp only [List.foldl_cons]
    rw [ih _ x hx.2, setMap_other _ _ _ _ hx.1]

/-- With pairwise distinct row ids, the reseeded draft map sends every row id
to its own row. -/
theorem seedDrafts_foldl_mem (rows : List BudgetRow) :
    ∀ (m : String → Option BudgetRow) (r : BudgetRow), r ∈ rows →
      (rows.map BudgetRow.id).Nodup →
      rows.foldl (fun d item => setMap d item.id (some item)) m r.id = some r := by
  induction rows with
  | nil => intro m r hr _; simp at hr
  | cons hd tl ih =>
    intro m r hr hnd
    simp only [List.map_cons, List.nodup_cons] at hnd
    simp only [List.foldl_cons]
    rcases List.mem_cons.mp hr with heq | htl
    · subst heq
      rw [seedDrafts_foldl_notmem tl _ r.id hnd.1]
      exact setMap_same _ _ _
    · exact ih _ r htl hnd.2

/-- C1: after a successful `load()` (with the store-assigned row ids pairwise
distinct), the reseeded draft entry of every fetched row is exactly that row,
so every editable field of the draft equals the corresponding row field;
attributes missing in the store were already defaulted to the empty string
when the row itself was built by `mapBudget`, hence agree in both. -/
theorem loadBudgets_drafts_mirror_rows (s : GridState) (data : Option (List RawBudget))
    (hids : (((data.getD []).map mapBudget).map BudgetRow.id).Nodup) :
    ∀ r ∈ (loadBudgets s (.ok data)).rows,
      (loadBudgets s (.ok data)).drafts r.id = some r ∧
      ∀ f : DraftField, getDraftValue (loadBudgets s (.ok data)).drafts r.id f = r.get f := by
  intro r hr
  have hd : (loadBudgets s (.ok data)).drafts r.id = some r :=
    seedDrafts_foldl_mem ((data.getD []).map mapBudget) _ r hr hids
  refine ⟨hd, fun f => ?_⟩
  simp [getDraftValue, hd]

/-- A concrete fetched record with all attributes present. -/
def demoRaw1 : RawBudget :=
  { promx_budgetid := "r1", promx_name := some "Alpha",
    promx_budgetconsumed := some "10", ownerid := some "o1" }

/-- A concrete fetched record with missing optional attributes. -/
def demoRaw2 : RawBudget :=
  { promx_budgetid := "r2", promx_name := none, promx_budgetconsumed := none,
    ownerid := some "o2" }

/-- Witness for C1 at a concrete input. -/
theorem loadBudgets_drafts_mirror_rows_witness :
    ((((some [demoRaw1, demoRaw2] : Option (List RawBudget)).getD []).map mapBudget).map
      BudgetRow.id).Nodup ∧
    mapBudget demoRaw2 ∈ (loadBudgets demoState (.ok (some [demoRaw1, demoRaw2]))).rows ∧
    (loadBudgets demoState (.ok (some [demoRaw1, demoRaw2]))).drafts (mapBudget demoRaw2).id
      = some (mapBudget demoRaw2) :=
  ⟨by decide, by decide,
    (loadBudgets_drafts_mirror_rows demoState (some [demoRaw1, demoRaw2]) (by decide)
      (mapBudget demoRaw2) (by decide)).1⟩

theorem dropWhile_all_ws {p : Char → Bool} (l : List Char) (h : ∀ c ∈ l, p c = true) :
    l.dropWhile p = [] := by
  induction l with
  | nil => rfl
  | cons hd tl ih =>
    rw [List.dropWhile_cons, if_pos (h hd (List.mem_cons_self hd tl))]
    exact ih (fun c hc => h c (List.mem_cons_of_mem hd hc))

/-- Trimming a string of white space yields the empty string. -/
theorem jsTrim_all_ws (value : String) (h : ∀ c ∈ value.data, jsWhitespace c = true) :
    jsTrim value = "" := by
  unfold jsTrim trimChars
  rw [dropWhile_all_ws value.data h]
  rfl

/-- C10: a `budgetConsumed` draft that is empty or whitespace-only passes
validation — its trimmed value converts to the finite number `0` — so no
validation error is recorded; when the saved value differs from `"0"`, the
commit issues one update storing the number `0`, and on success both the row
and the draft for that field become `"0"`. -/
theorem handleCommit_blank_budget_is_zero (s : GridState) (id : String) (value : String)
    (original : BudgetRow)
    (hws : ∀ c ∈ value.data, jsWhitespace c = true)
    (hfind : s.rows.find? (fun row => row.id == id) = some original)
    (hne : ¬ original.budgetConsumed = "0") :
    jsNumber (jsTrim value) = some 0 ∧
    (handleCommit s id .budgetConsumed value .ok).2
      = some { promx_budgetconsumed := some 0 } ∧
    (handleCommit s id .budgetConsumed value .ok).1.rows.find? (fun row => row.id == id)
      = some (original.set .budgetConsumed "0") ∧
    (handleCommit s id .budgetConsumed value .ok).1.drafts id
      = some (((s.drafts id).getD emptyRow).set .budgetConsumed "0") ∧
    (handleCommit s id .budgetConsumed value .ok).1.fieldErrors
      (getErrorKey id .budgetConsumed) = none := by
  have htrim : jsTrim value = "" := jsTrim_all_ws value hws
  have hprep : commitPrep .budgetConsumed (jsTrim value)
      = some ({ promx_budgetconsumed := some 0 }, "0") := by
    rw [htrim]; decide
  have hdiff : ¬ original.get .budgetConsumed = "0" := hne
  rw [handleCommit_ok_eq s id .budgetConsumed value original
    { promx_budgetconsumed := some 0 } "0" hfind hprep hdiff]
  refine ⟨?_, rfl, find?_map_update s.rows id .budgetConsumed "0" original hfind,
    setMap_same _ _ _, setMap_same _ _ _⟩
  rw [htrim]; decide

/-- Witness for C10 at a concrete input. -/
theorem handleCommit_blank_budget_is_zero_witness :
    (∀ c ∈ ("   " : String).data, jsWhitespace c = true) ∧
    demoState.rows.find? (fun row => row.id == "r1") = some demoRow ∧
    ¬ demoRow.budgetConsumed = "0" ∧
    (handleCommit demoState "r1" .budgetConsumed "   " .ok).2
      = some { promx_budgetconsumed := some 0 } :=
  ⟨by decide, by decide, by decide,
    (handleCommit_blank_budget_is_zero demoState "r1" "   " demoRow (by decide) (by decide)
      (by decide)).2.1⟩

/-! ### Decimal digit strings and their values -/

theorem digitsVal_nil : digitsVal [] = 0 := rfl

theorem digitVal_charOfDigit : ∀ d, d < 10 → digitVal (charOfDigit d) = d := by decide

theorem isDigit_charOfDigit : ∀ d, d < 10 → (charOfDigit d).isDigit = true := by decide

theorem not_ws_charOfDigit : ∀ d, d < 10 → jsWhitespace (charOfDigit d) = false := by decide

theorem digitsVal_append (a b : List Char) :
    digitsVal (a ++ b) = digitsVal a * 10 ^ b.length + digitsVal b := by
  induction a with
  | nil => simp [digitsVal]
  | cons c t ih =>
    simp only [List.cons_append, digitsVal, List.append_eq, List.length_append, ih, pow_add]
    ring

theorem digitsVal_replicate_zero (j : Nat) : digitsVal (List.replicate j '0') = 0 := by
  induction j with
  | zero => rfl
  | succ n ih =>
    simp [List.replicate_succ, digitsVal, ih, show digitVal '0' = 0 from rfl]

theorem natToRevDigits_mem : ∀ (fuel n : Nat) (c : Char), c ∈ natToRevDigits fuel n →
    ∃ d, d < 10 ∧ c = charOfDigit d := by
  intro fuel
  induction fuel with
  | zero =>
    intro n c hc
    simp [natToRevDigits] at hc
  | succ f ih =>
    intro n c hc
    by_cases hn : n = 0
    · simp [natToRevDigits, hn] at hc
    · rw [natToRevDigits, if_neg hn] at hc
      rcases List.mem_cons.mp hc with h1 | h2
      · exact ⟨n % 10, Nat.mod_lt n (by omega), h1⟩
      · exact ih _ c h2

theorem digitsVal_reverse_cons (c : Char) (l : List Char) :
    digitsVal ((c :: l).reverse) = 10 * digitsVal l.reverse + digitVal c := by
  rw [List.reverse_cons, digitsVal_append]
  simp [digitsVal]
  ring

theorem natToRevDigits_val : ∀ (fuel n : Nat), n ≤ fuel →
    digitsVal (natToRevDigits fuel n).reverse = n := by
  intro fuel
  induction fuel with
  | zero =>
    intro n h
    interval_cases n
    rfl
  | succ f ih =>
    intro n h
    by_cases hn : n = 0
    · subst hn; rfl
    · rw [natToRevDigits, if_neg hn, digitsVal_reverse_cons, ih (n / 10) (by omega),
        digitVal_charOfDigit (n % 10) (Nat.mod_lt n (by omega))]
      omega

theorem natDigitChars_mem (n : Nat) (c : Char) (hc : c ∈ natDigitChars n) :
    ∃ d, d < 10 ∧ c = charOfDigit d := by
  unfold natDigitChars at hc
  by_cases hn : n = 0
  · rw [if_pos hn] at hc
    have h0 : c = '0' := by simpa using hc
    exact ⟨0, by omega, h0.trans (by decide)⟩
  · rw [if_neg hn] at hc
    exact natToRevDigits_mem n n c (List.mem_reverse.mp hc)

theorem natDigitChars_digits (n : Nat) (c : Char) (hc : c ∈ natDigitChars n) :
    c.isDigit = true := by
  obtain ⟨d, hd, rfl⟩ := natDigitChars_mem n c hc
  exact isDigit_charOfDigit d hd

theorem natDigitChars_ne_nil (n : Nat) : natDigitChars n ≠ [] := by
  unfold natDigitChars
  by_cases hn : n = 0
  · simp [hn]
  · rw [if_neg hn]
    simp only [ne_eq, List.reverse_eq_nil_iff]
    cases n with
    | zero => exact absurd rfl hn
    | succ m => simp [natToRevDigits]

theorem digitsVal_natDigitChars (n : Nat) : digitsVal (natDigitChars n) = n := by
  unfold natDigitChars
  by_cases hn : n = 0
  · rw [if_pos hn, hn]
    decide
  · rw [if_neg hn]
    exact natToRevDigits_val n n le_rfl

/-! ### takeWhile / dropWhile on structured character lists -/

theorem takeWhile_all {p : Char → Bool} (l : List Char) (h : ∀ c ∈ l, p c = true) :
    l.takeWhile p = l := by
  induction l with
  | nil => rfl
  | cons hd tl ih =>
    rw [List.takeWhile_cons, if_pos (h hd (List.mem_cons_self hd tl)),
      ih (fun c hc => h c (List.mem_cons_of_mem hd hc))]

theorem takeWhile_append_stop {p : Char → Bool} (a : List Char) (b : Char) (t : List Char)
    (ha : ∀ c ∈ a, p c = true) (hb : p b = false) :
    (a ++ b :: t).takeWhile p = a := by
  induction a with
  | nil => simp [List.takeWhile_cons, hb]
  | cons hd tl ih =>
    rw [List.cons_append, List.takeWhile_cons, if_pos (ha hd (List.mem_cons_self hd tl)),
      ih (fun c hc => ha c (List.mem_cons_of_mem hd hc))]

theorem dropWhile_append_stop {p : Char → Bool} (a : List Char) (b : Char) (t : List Char)
    (ha : ∀ c ∈ a, p c = true) (hb : p b = false) :
    (a ++ b :: t).dropWhile p = b :: t := by
  induction a with
  | nil => simp [List.dropWhile_cons, hb]
  | cons hd tl ih =>
    rw [List.cons_append, List.dropWhile_cons, if_pos (ha hd (List.mem_cons_self hd tl))]
    exact ih (fun c hc => ha c (List.mem_cons_of_mem hd hc))

/-! ### Semantics of `scalePow10` and the decimal parser on digit strings -/

theorem scalePow10_eq (m : Nat) (t : ℤ) : scalePow10 m t = (m : ℚ) * (10 : ℚ) ^ t := by
  unfold scalePow10
  by_cases h : 0 ≤ t
  · rw [if_pos h, Rat.divInt_one]
    push_cast
    rw [← zpow_natCast (10 : ℚ) t.toNat, Int.toNat_of_nonneg h]
  · rw [if_neg h, Rat.divInt_eq_div]
    push_cast
    rw [div_eq_mul_inv]
    congr 1
    rw [← zpow_natCast (10 : ℚ) (-t).toNat, ← zpow_neg]
    congr 1
    omega

theorem parseDec_digits (l : List Char) (h0 : l ≠ []) (h : ∀ c ∈ l, c.isDigit = true) :
    parseDec l = some ((digitsVal l : ℚ)) := by
  unfold parseDec parseExpPart
  rw [takeWhile_all l h, dropWhile_all_ws l h]
  simp [splitFrac, h0, scalePow10_eq, digitsVal_nil]

theorem parseDec_dot (ip fp : List Char)
    (hip : ∀ c ∈ ip, c.isDigit = true) (hfp : ∀ c ∈ fp, c.isDigit = true)
    (hne : ¬ (ip = [] ∧ fp = [])) :
    parseDec (ip ++ '.' :: fp)
      = some (((digitsVal ip * 10 ^ fp.length + digitsVal fp : ℕ) : ℚ) / 10 ^ fp.length) := by
  unfold parseDec parseExpPart
  rw [takeWhile_append_stop ip '.' fp hip (by decide),
    dropWhile_append_stop ip '.' fp hip (by decide)]
  simp only [splitFrac, takeWhile_all fp hfp, dropWhile_all_ws fp hfp]
  rw [if_neg hne, if_pos trivial, scalePow10_eq]
  rw [zpow_neg, zpow_natCast, ← div_eq_mul_inv]

/-! ### Reduction of `jsNumberAux` on decimal-shaped inputs -/

theorem take2_ne_of_decimalish {l : List Char}
    (h : ∀ c ∈ l, c.isDigit = true ∨ c = '.') (c2 : Char)
    (hc2 : ¬ (c2.isDigit = true ∨ c2 = '.')) : ¬ l.take 2 = ['0', c2] := by
  intro he
  have hmem : c2 ∈ l.take 2 := by rw [he]; simp
  exact hc2 (h c2 (List.take_subset 2 l hmem))

theorem jsNumberAux_decimalish (l : List Char) (hne : l ≠ [])
    (h : ∀ c ∈ l, c.isDigit = true ∨ c = '.') : jsNumberAux l = parseDec l := by
  unfold jsNumberAux
  rw [if_neg hne]
  rw [if_neg, if_neg, if_neg]
  · unfold jsNumberSigned
    obtain ⟨hd, tl, rfl⟩ := List.exists_cons_of_ne_nil hne
    have hhd := h hd (List.mem_cons_self hd tl)
    rw [if_neg, if_neg, if_neg]
    · intro he
      have : hd = 'I' := by
        have h2 := congrArg List.head? he
        simpa using h2
      subst this
      exact absurd hhd (by decide)
    · intro he
      have : hd = '+' := by simpa using he
      subst this
      exact absurd hhd (by decide)
    · intro he
      have : hd = '-' := by simpa using he
      subst this
      exact absurd hhd (by decide)
  · rintro (he | he) <;>
      exact take2_ne_of_decimalish h _ (by decide) he
  · rintro (he | he) <;>
      exact take2_ne_of_decimalish h _ (by decide) he
  · rintro (he | he) <;>
      exact take2_ne_of_decimalish h _ (by decide) he

theorem jsNumberAux_neg_decimalish (l : List Char) (_hne : l ≠ [])
    (h : ∀ c ∈ l, c.isDigit = true ∨ c = '.') :
    jsNumberAux ('-' :: l) = (parseDec l).map (fun q => -q) := by
  unfold jsNumberAux
  rw [if_neg (by simp)]
  rw [if_neg, if_neg, if_neg]
  · unfold jsNumberSigned
    rw [if_pos (by simp)]
    rw [if_neg]
    · rfl
    · intro he
      have hI : 'I' ∈ l := by
        rw [show List.tail ('-' :: l) = l from rfl] at he
        rw [he]
        decide
      exact absurd (h 'I' hI) (by decide)
  · rintro (he | he) <;> simp at he
  · rintro (he | he) <;> simp at he
  · rintro (he | he) <;> simp at he

/-! ### The decimal-exponent search -/

theorem decExpAux_finds (d : Nat) :
    ∀ (fuel k j : Nat), j < fuel → d ∣ 10 ^ (k + j) →
      ∃ r, decExpAux d fuel k = some r ∧ d ∣ 10 ^ r := by
  intro fuel
  induction fuel with
  | zero =>
    intro k j hj _
    omega
  | succ f ih =>
    intro k j hj hdvd
    by_cases hk : d ∣ 10 ^ k
    · exact ⟨k, by simp [decExpAux, hk], hk⟩
    · have hj0 : j ≠ 0 := by
        intro h0
        subst h0
        rw [Nat.add_zero] at hdvd
        exact hk hdvd
      obtain ⟨r, hr, hrd⟩ := ih (k + 1) (j - 1) (by omega)
        (by rw [show k + 1 + (j - 1) = k + j by omega]; exact hdvd)
      exact ⟨r, by simp [decExpAux, hk, hr], hrd⟩

/-- A number dividing some power of ten divides the `d`-th power of ten for
`d` itself: peel factors of `gcd d 10` until the rest is coprime to ten. -/
theorem dvd_ten_pow_self : ∀ (d : Nat), d ≠ 0 → ∀ (K : Nat), d ∣ 10 ^ K → d ∣ 10 ^ d := by
  intro d
  induction d using Nat.strong_induction_on with
  | _ d ih =>
    intro hd K hK
    rcases Nat.lt_or_ge d 2 with hlt | hge
    · interval_cases d
      · exact absurd rfl hd
      · exact one_dvd _
    · by_cases hg : Nat.gcd d 10 = 1
      · have hco : Nat.Coprime d 10 := hg
        have hco2 : Nat.Coprime d (10 ^ K) := hco.pow_right K
        have h1 : d = 1 := Nat.Coprime.eq_one_of_dvd hco2 hK
        omega
      · have hg10 : Nat.gcd d 10 ∣ 10 := Nat.gcd_dvd_right d 10
        have hgd : Nat.gcd d 10 ∣ d := Nat.gcd_dvd_left d 10
        have hgpos : 2 ≤ Nat.gcd d 10 := by
          rcases Nat.eq_zero_or_pos (Nat.gcd d 10) with h0 | h1
          · have := Nat.eq_zero_of_gcd_eq_zero_right h0
            omega
          · omega
        have hd2d : d / Nat.gcd d 10 ∣ d := Nat.div_dvd_of_dvd hgd
        have hdgd2 : d = Nat.gcd d 10 * (d / Nat.gcd d 10) := (Nat.mul_div_cancel' hgd).symm
        have hd2lt : d / Nat.gcd d 10 < d := Nat.div_lt_self (by omega) (by omega)
        have hd2ne : d / Nat.gcd d 10 ≠ 0 := by
          intro h0
          rw [h0, Nat.mul_zero] at hdgd2
          omega
        have hd2self : d / Nat.gcd d 10 ∣ 10 ^ (d / Nat.gcd d 10) :=
          ih _ hd2lt hd2ne K (dvd_trans hd2d hK)
        have hstep : d ∣ 10 ^ (d / Nat.gcd d 10 + 1) := by
          rw [pow_succ]
          calc d = Nat.gcd d 10 * (d / Nat.gcd d 10) := hdgd2
            _ ∣ 10 * (10 ^ (d / Nat.gcd d 10)) := Nat.mul_dvd_mul hg10 hd2self
            _ = 10 ^ (d / Nat.gcd d 10) * 10 := Nat.mul_comm _ _
        exact dvd_trans hstep (pow_dvd_pow 10 (by omega))

theorem decExp_dvd (d : Nat) (hd : d ≠ 0) (K : Nat) (hK : d ∣ 10 ^ K) :
    d ∣ 10 ^ decExp d := by
  have hself : d ∣ 10 ^ d := dvd_ten_pow_self d hd K hK
  obtain ⟨r, hr, hrd⟩ := decExpAux_finds d (d + 1) 0 d (by omega) (by simpa using hself)
  unfold decExp
  rw [hr]
  exact hrd

/-! ### Parsing the printed decimal body -/

theorem jsBodyChars_ne_nil (k m : Nat) : jsBodyChars k m ≠ [] := by
  unfold jsBodyChars
  split_ifs with h1 h2
  · exact natDigitChars_ne_nil m
  · simp
  · intro he
    have := congrArg List.length he
    simp [List.length_take] at this

theorem jsBodyChars_decimalish (k m : Nat) :
    ∀ c ∈ jsBodyChars k m, c.isDigit = true ∨ c = '.' := by
  intro c hc
  unfold jsBodyChars at hc
  split_ifs at hc with h1 h2
  · exact Or.inl (natDigitChars_digits m c hc)
  · rcases List.mem_cons.mp hc with h | h
    · subst h; exact Or.inl (by decide)
    rcases List.mem_cons.mp h with h | h
    · exact Or.inr h
    rcases List.mem_append.mp h with h | h
    · have := List.eq_of_mem_replicate h
      subst this
      exact Or.inl (by decide)
    · exact Or.inl (natDigitChars_digits m c h)
  · rcases List.mem_append.mp hc with h | h
    · exact Or.inl (natDigitChars_digits m c (List.take_subset _ _ h))
    rcases List.mem_cons.mp h with h | h
    · exact Or.inr h
    · exact Or.inl (natDigitChars_digits m c (List.drop_subset _ _ h))

theorem jsBodyChars_not_ws (k m : Nat) :
    ∀ c ∈ jsBodyChars k m, jsWhitespace c = false := by
  intro c hc
  rcases jsBodyChars_decimalish k m c hc with h | h
  · unfold jsBodyChars at hc
    split_ifs at hc with h1 h2
    · obtain ⟨d, hd, rfl⟩ := natDigitChars_mem m c hc
      exact not_ws_charOfDigit d hd
    · rcases List.mem_cons.mp hc with h3 | h3
      · subst h3; decide
      rcases List.mem_cons.mp h3 with h3 | h3
      · subst h3; decide
      rcases List.mem_append.mp h3 with h3 | h3
      · have := List.eq_of_mem_replicate h3
        subst this; decide
      · obtain ⟨d, hd, rfl⟩ := natDigitChars_mem m c h3
        exact not_ws_charOfDigit d hd
    · rcases List.mem_append.mp hc with h3 | h3
      · obtain ⟨d, hd, rfl⟩ := natDigitChars_mem m c (List.take_subset _ _ h3)
        exact not_ws_charOfDigit d hd
      rcases List.mem_cons.mp h3 with h3 | h3
      · subst h3; decide
      · obtain ⟨d, hd, rfl⟩ := natDigitChars_mem m c (List.drop_subset _ _ h3)
        exact not_ws_charOfDigit d hd
  · subst h; decide

theorem parseDec_jsBodyChars (k m : Nat) :
    parseDec (jsBodyChars k m) = some ((m : ℚ) / 10 ^ k) := by
  unfold jsBodyChars
  split_ifs with h1 h2
  · rw [parseDec_digits (natDigitChars m) (natDigitChars_ne_nil m) (natDigitChars_digits m)]
    rw [digitsVal_natDigitChars, h1]
    norm_num
  · rw [show ('0' :: '.' :: (List.replicate (k - (natDigitChars m).length) '0'
        ++ natDigitChars m) : List Char)
      = ['0'] ++ '.' :: (List.replicate (k - (natDigitChars m).length) '0'
        ++ natDigitChars m) from rfl]
    rw [parseDec_dot ['0'] _ (by decide) ?hfp (by simp)]
    case hfp =>
      intro c hc
      rcases List.mem_append.mp hc with h | h
      · have := List.eq_of_mem_replicate h
        subst this; decide
      · exact natDigitChars_digits m c h
    have hlen : (List.replicate (k - (natDigitChars m).length) '0'
        ++ natDigitChars m).length = k := by
      simp [List.length_append, List.length_replicate]
      omega
    have hval : digitsVal (List.replicate (k - (natDigitChars m).length) '0'
        ++ natDigitChars m) = m := by
      rw [digitsVal_append, digitsVal_replicate_zero, digitsVal_natDigitChars]
      ring
    rw [hlen, hval]
    norm_num [show digitsVal ['0'] = 0 by decide]
  · rw [parseDec_dot _ _
      (fun c hc => natDigitChars_digits m c (List.take_subset _ _ hc))
      (fun c hc => natDigitChars_digits m c (List.drop_subset _ _ hc)) ?hne]
    case hne =>
      rintro ⟨htake, -⟩
      have := congrArg List.length htake
      simp [List.length_take] at this
      omega
    have hlen : ((natDigitChars m).drop ((natDigitChars m).length - k)).length = k := by
      simp [List.length_drop]
      omega
    have hval : digitsVal ((natDigitChars m).take ((natDigitChars m).length - k))
          * 10 ^ ((natDigitChars m).drop ((natDigitChars m).length - k)).length
        + digitsVal ((natDigitChars m).drop ((natDigitChars m).length - k)) = m := by
      rw [← digitsVal_append, List.take_append_drop, digitsVal_natDigitChars]
    rw [hlen] at hval
    rw [hlen, hval]

/-! ### The print/parse round trip -/

/-- Parsing the printed decimal form of a rational whose denominator divides a
power of ten recovers the rational exactly. -/
theorem jsNumber_jsString (q : ℚ) (K : ℕ) (hK : (q.den : ℕ) ∣ 10 ^ K) :
    jsNumber (jsString q) = some q := by
  have hden : q.den ≠ 0 := q.den_nz
  have hd10 : q.den ∣ 10 ^ decExp q.den := decExp_dvd q.den hden K hK
  have hdvd : q.den ∣ q.num.natAbs * 10 ^ decExp q.den := Dvd.dvd.mul_left hd10 _
  have hmden : q.num.natAbs * 10 ^ decExp q.den / q.den * q.den
      = q.num.natAbs * 10 ^ decExp q.den := Nat.div_mul_cancel hdvd
  have habs : ((q.num.natAbs * 10 ^ decExp q.den / q.den : ℕ) : ℚ) / 10 ^ decExp q.den
      = (q.num.natAbs : ℚ) / (q.den : ℚ) := by
    rw [div_eq_div_iff (by positivity) (by exact_mod_cast hden)]
    exact_mod_cast congrArg (fun n : ℕ => (n : ℚ)) hmden
  have hbody := parseDec_jsBodyChars (decExp q.den) (q.num.natAbs * 10 ^ decExp q.den / q.den)
  show jsNumberAux (jsStringChars q) = some q
  by_cases hneg : q < 0
  · have hchars : jsStringChars q
        = '-' :: jsBodyChars (decExp q.den) (q.num.natAbs * 10 ^ decExp q.den / q.den) := by
      unfold jsStringChars
      rw [if_pos hneg]
    rw [hchars, jsNumberAux_neg_decimalish _ (jsBodyChars_ne_nil _ _)
      (jsBodyChars_decimalish _ _), hbody]
    simp only [Option.map_some']
    congr 1
    rw [habs]
    have hnum : q.num < 0 := by
      by_contra hge
      push_neg at hge
      exact absurd (Rat.num_nonneg.mp hge) (not_le.mpr hneg)
    have hcast : ((q.num.natAbs : ℚ)) = -(q.num : ℚ) := by
      have h1 : (q.num.natAbs : ℤ) = -q.num := by omega
      calc ((q.num.natAbs : ℚ)) = (((q.num.natAbs : ℤ) : ℚ)) := (Int.cast_natCast _).symm
        _ = ((-q.num : ℤ) : ℚ) := by rw [h1]
        _ = -(q.num : ℚ) := Int.cast_neg _
    rw [hcast, neg_div, neg_neg]
    exact Rat.num_div_den q
  · have hchars : jsStringChars q
        = jsBodyChars (decExp q.den) (q.num.natAbs * 10 ^ decExp q.den / q.den) := by
      unfold jsStringChars
      rw [if_neg hneg]
    rw [hchars, jsNumberAux_decimalish _ (jsBodyChars_ne_nil _ _)
      (jsBodyChars_decimalish _ _), hbody]
    congr 1
    rw [habs]
    have hnum : (0 : ℤ) ≤ q.num := Rat.num_nonneg.mpr (not_lt.mp hneg)
    have hcast : ((q.num.natAbs : ℚ)) = (q.num : ℚ) := by
      have h1 : (q.num.natAbs : ℤ) = q.num := by omega
      calc ((q.num.natAbs : ℚ)) = (((q.num.natAbs : ℤ) : ℚ)) := (Int.cast_natCast _).symm
        _ = (q.num : ℚ) := by rw [h1]
    rw [hcast]
    exact Rat.num_div_den q

/-! ### Denominators of parsed values divide a power of ten -/

theorem scalePow10_den_dvd (m : Nat) (t : ℤ) :
    ∃ K, ((scalePow10 m t).den : ℕ) ∣ 10 ^ K := by
  unfold scalePow10
  by_cases h : 0 ≤ t
  · rw [if_pos h, Rat.divInt_one]
    refine ⟨0, ?_⟩
    rw [Rat.intCast_den]
    exact one_dvd _
  · rw [if_neg h]
    refine ⟨(-t).toNat, ?_⟩
    have hd := Rat.den_dvd ((m : ℤ)) ((10 : ℤ) ^ (-t).toNat)
    exact_mod_cast hd

theorem parseExpTail_scale (M c : Nat) (es : ℤ) (r3 : List Char) (q : ℚ)
    (h : parseExpTail M c es r3 = some q) : ∃ m t, q = scalePow10 m t := by
  unfold parseExpTail at h
  split_ifs at h with h1
  all_goals first
    | exact Option.noConfusion h
    | exact ⟨M, _, (Option.some.inj h).symm⟩

theorem parseExpPart_scale (M c : Nat) (r2 : List Char) (q : ℚ)
    (h : parseExpPart M c r2 = some q) : ∃ m t, q = scalePow10 m t := by
  unfold parseExpPart at h
  split_ifs at h with h1 h2
  all_goals first
    | exact Option.noConfusion h
    | exact ⟨M, _, (Option.some.inj h).symm⟩
    | exact parseExpTail_scale _ _ _ _ _ h

theorem parseDec_den_dvd (l : List Char) (q : ℚ) (h : parseDec l = some q) :
    ∃ K, (q.den : ℕ) ∣ 10 ^ K := by
  unfold parseDec at h
  split_ifs at h with h1
  all_goals first
    | exact Option.noConfusion h
    | (obtain ⟨m, t, rfl⟩ := parseExpPart_scale _ _ _ _ h
       exact scalePow10_den_dvd m t)

theorem parseRadix_den_dvd (base : Nat) (l : List Char) (q : ℚ)
    (h : parseRadix base l = some q) : ∃ K, (q.den : ℕ) ∣ 10 ^ K := by
  unfold parseRadix at h
  split_ifs at h with h1
  all_goals first
    | exact Option.noConfusion h
    | (obtain ⟨n, hn, rfl⟩ := Option.map_eq_some'.mp h
       refine ⟨0, ?_⟩
       rw [Rat.divInt_one, Rat.intCast_den]
       exact one_dvd _)

theorem jsNumberSigned_den_dvd (l : List Char) (q : ℚ)
    (h : jsNumberSigned l = some q) : ∃ K, (q.den : ℕ) ∣ 10 ^ K := by
  unfold jsNumberSigned at h
  split_ifs at h with h1 h2 h3 h4 h5
  all_goals first
    | exact Option.noConfusion h
    | exact parseDec_den_dvd _ _ h
    | (obtain ⟨q0, hq0, rfl⟩ := Option.map_eq_some'.mp h
       obtain ⟨K, hK⟩ := parseDec_den_dvd _ _ hq0
       exact ⟨K, by rwa [Rat.neg_den]⟩)

theorem den_zero_dvd_one : (((0 : ℚ).den : ℕ)) ∣ 10 ^ 0 := by decide

/-- Every finite value produced by the string-to-number conversion has a
denominator dividing a power of ten. -/
theorem jsNumber_den_dvd (s : String) (q : ℚ) (h : jsNumber s = some q) :
    ∃ K, (q.den : ℕ) ∣ 10 ^ K := by
  unfold jsNumber jsNumberAux at h
  split_ifs at h with h1 h2 h3 h4
  all_goals first
    | exact ⟨0, Option.some.inj h ▸ den_zero_dvd_one⟩
    | exact parseRadix_den_dvd _ _ _ h
    | exact jsNumberSigned_den_dvd _ _ h

/-! ### Trimming the printed form is the identity -/

theorem dropWhile_of_none {p : Char → Bool} (l : List Char)
    (h : ∀ c ∈ l, p c = false) : l.dropWhile p = l := by
  cases l with
  | nil => rfl
  | cons hd tl =>
    rw [List.dropWhile_cons, if_neg (by simp [h hd (List.mem_cons_self hd tl)])]

theorem trimChars_id (l : List Char) (h : ∀ c ∈ l, jsWhitespace c = false) :
    trimChars l = l := by
  unfold trimChars
  rw [dropWhile_of_none l h, dropWhile_of_none l.reverse
    (fun c hc => h c (List.mem_reverse.mp hc)), List.reverse_reverse]

theorem jsTrim_jsString (q : ℚ) : jsTrim (jsString q) = jsString q := by
  show String.mk (trimChars (jsStringChars q)) = String.mk (jsStringChars q)
  congr 1
  apply trimChars_id
  intro c hc
  unfold jsStringChars at hc
  by_cases hneg : q < 0
  · rw [if_pos hneg] at hc
    rcases List.mem_cons.mp hc with h | h
    · subst h; decide
    · exact jsBodyChars_not_ws _ _ c h
  · rw [if_neg hneg] at hc
    exact jsBodyChars_not_ws _ _ c hc

/-- C6: round-trip normalisation of `budgetConsumed`.  A successful commit
sends the store the parsed numeric value of the trimmed input; the row and
the draft afterwards hold the re-stringified form of that number rather than
the raw input text; and an immediate re-commit of the redisplayed value is a
no-op: it returns the state unchanged and issues no update request. -/
theorem handleCommit_budget_roundtrip (s : GridState) (id : String) (value : String)
    (original : BudgetRow) (parsed : ℚ) (result2 : UpdateOutcome)
    (hfind : s.rows.find? (fun row => row.id == id) = some original)
    (hparse : jsNumber (jsTrim value) = some parsed)
    (hdiff : ¬ original.budgetConsumed = jsString parsed) :
    (handleCommit s id .budgetConsumed value .ok).2
      = some { promx_budgetconsumed := some parsed } ∧
    (handleCommit s id .budgetConsumed value .ok).1.rows.find? (fun row => row.id == id)
      = some (original.set .budgetConsumed (jsString parsed)) ∧
    getDraftValue (handleCommit s id .budgetConsumed value .ok).1.drafts id .budgetConsumed
      = jsString parsed ∧
    handleCommit (handleCommit s id .budgetConsumed value .ok).1 id .budgetConsumed
        (jsString parsed) result2
      = ((handleCommit s id .budgetConsumed value .ok).1, none) := by
  have hprep : commitPrep .budgetConsumed (jsTrim value)
      = some ({ promx_budgetconsumed := some parsed }, jsString parsed) := by
    simp [commitPrep, hparse]
  have hdiff2 : ¬ original.get .budgetConsumed = jsString parsed := hdiff
  rw [handleCommit_ok_eq s id .budgetConsumed value original
    { promx_budgetconsumed := some parsed } (jsString parsed) hfind hprep hdiff2]
  refine ⟨rfl, find?_map_update s.rows id .budgetConsumed (jsString parsed) original hfind,
    ?_, ?_⟩
  · simp [getDraftValue, setMap_same, BudgetRow.get_set]
  · obtain ⟨K, hK⟩ := jsNumber_den_dvd (jsTrim value) parsed hparse
    have hround : jsNumber (jsString parsed) = some parsed := jsNumber_jsString parsed K hK
    have htrim : jsTrim (jsString parsed) = jsString parsed := jsTrim_jsString parsed
    have hprep2 : commitPrep .budgetConsumed (jsTrim (jsString parsed))
        = some ({ promx_budgetconsumed := some parsed }, jsString parsed) := by
      rw [htrim]
      simp [commitPrep, hround]
    have hfind2 : (List.map (fun row => if (row.id == id) = true
          then row.set .budgetConsumed (jsString parsed) else row) s.rows).find?
          (fun row => row.id == id)
        = some (original.set .budgetConsumed (jsString parsed)) :=
      find?_map_update s.rows id .budgetConsumed (jsString parsed) original hfind
    rw [handleCommit_unchanged _ id .budgetConsumed (jsString parsed) result2
      (original.set .budgetConsumed (jsString parsed))
      { promx_budgetconsumed := some parsed } (jsString parsed) hfind2 hprep2
      (BudgetRow.get_set _ _ _)]
    congr 1
    congr 1
    all_goals
      funext x
      by_cases hx : x = getErrorKey id DraftField.budgetConsumed <;> simp [setMap, hx]

/-- Witness for C6 at a concrete input: `"42.50"` normalises to `"42.5"`. -/
theorem handleCommit_budget_roundtrip_witness :
    demoState.rows.find? (fun row => row.id == "r1") = some demoRow ∧
    jsNumber (jsTrim "42.50") = some (Rat.divInt 85 2) ∧
    ¬ demoRow.budgetConsumed = jsString (Rat.divInt 85 2) ∧
    (handleCommit demoState "r1" .budgetConsumed "42.50" .ok).2
      = some { promx_budgetconsumed := some (Rat.divInt 85 2) } ∧
    getDraftValue (handleCommit demoState "r1" .budgetConsumed "42.50" .ok).1.drafts "r1"
      .budgetConsumed = jsString (Rat.divInt 85 2) :=
  ⟨by decide, by decide, by decide,
    (handleCommit_budget_roundtrip demoState "r1" "42.50" demoRow (Rat.divInt 85 2) .ok
      (by decide) (by decide) (by decide)).1,
    (handleCommit_budget_roundtrip demoState "r1" "42.50" demoRow (Rat.divInt 85 2) .ok
      (by decide) (by decide) (by decide)).2.2.1⟩
